import Mathlib

/-!
Verification of the `GattUuid` value type from `src/GattUuid.h`.

The C++ code manipulates `std::string` values, which are byte sequences; we
embed strings as `List Nat` of byte values (so `'0' = 48`, `'a' = 97`,
`'-' = 45`).  Machine integers (`uint16_t`, `uint32_t`, `uint64_t`) are
embedded as `Nat` reduced modulo `2^16`, `2^32`, `2^64` at the constructor
boundary, which is exactly the value set a caller can pass through the C++
parameter types.  All definitions are executable and kernel-evaluable.
-/

/-- Byte values of a Lean string literal; used only to write concrete
inputs and expected outputs conveniently. -/
def bytes (s : String) : List Nat := s.toList.map Char.toNat

/-- Embedding of C `::tolower` restricted to ASCII byte values: maps
`'A'..'Z'` (65..90) to `'a'..'z'`, leaves every other byte unchanged. -/
def toLowerB (c : Nat) : Nat := if 65 ≤ c ∧ c ≤ 90 then c + 32 else c

/-- The hex-character test used by the lambda inside `GattUuid::clean`:
`(c >= '0' && c <= '9') || (c >= 'a' && c <= 'f') || (c >= 'A' && c <= 'F')`. -/
def isHexB (c : Nat) : Bool :=
  decide ((48 ≤ c ∧ c ≤ 57) ∨ (97 ≤ c ∧ c ≤ 102) ∨ (65 ≤ c ∧ c ≤ 70))

/-- A byte that is a lowercase hex digit (`0`-`9` or `a`-`f`).  Used to state
well-formedness of canonical strings. -/
def isHexLowerB (c : Nat) : Bool :=
  decide ((48 ≤ c ∧ c ≤ 57) ∨ (97 ≤ c ∧ c ≤ 102))

/-- Embedding of `GattUuid::clean`: lowercase the string with `::tolower`,
then erase every byte that is not a hex character.  (The early return on the
empty string in the source is semantically the identity here.) -/
def clean (s : List Nat) : List Nat := (s.map toLowerB).filter isHexB

/-- Embedding of `std::string::insert(i, 1, c)`: insert one byte `c` at
position `i` (the source only calls it with `i < length`). -/
def insertAt (l : List Nat) (i c : Nat) : List Nat := l.take i ++ c :: l.drop i

/-- Embedding of `GattUuid::dashify`: clean the input, then insert `'-'`
(byte 45) at positions 8, 13, 18, 23 of the progressively modified string,
each insertion guarded by `length > position`. -/
def dashify (s : List Nat) : List Nat :=
  let d0 := clean s
  let d1 := if 8 < d0.length then insertAt d0 8 45 else d0
  let d2 := if 13 < d1.length then insertAt d1 13 45 else d1
  let d3 := if 18 < d2.length then insertAt d2 18 45 else d2
  if 23 < d3.length then insertAt d3 23 45 else d3

/-- Source constant `kGattStandardUuidPart1Prefix` (the name here drops the
last word of the source identifier): the 4-character `"0000"` block. -/
def kGattStandardUuidPart1 : List Nat := bytes "0000"

/-- Source constant `kGattStandardUuidSuffix`: the 112-bit Bluetooth base
suffix `"-0000-1000-8000-00805f9b34fb"`. -/
def kGattStandardUuidSuffix : List Nat := bytes "-0000-1000-8000-00805f9b34fb"

/-- The `GattUuid` value: the canonical string `uuid` and the recorded
`bitCount` (0, 16, 32 or 128). -/
structure GattUuid where
  uuid : List Nat
  bitCount : Nat

/-- Byte of one hex digit as `snprintf %x` renders it: `0`-`9` then
lowercase `a`-`f`. -/
def hexDigit (d : Nat) : Nat := if d < 10 then 48 + d else 87 + d

/-- Little-endian hex digits of `n` (empty for `n = 0`), written with
structural fuel so that it kernel-evaluates; fuel 16 is exact for every
value below `16^16 = 2^64`, which covers every machine integer the
constructors can receive. -/
def hexRevAux : Nat → Nat → List Nat
  | 0, _ => []
  | fuel + 1, n => if n = 0 then [] else hexDigit (n % 16) :: hexRevAux fuel (n / 16)

/-- Embedding of `snprintf` with format `%0wx` (no buffer truncation occurs
in the source: every buffer is large enough for its worst case): the hex
digits of `n`, zero-padded on the left to a minimum width `w`. -/
def hexMin (w n : Nat) : List Nat :=
  let ds := (hexRevAux 16 n).reverse
  List.replicate (w - ds.length) 48 ++ ds

/-- Embedding of the string constructor `GattUuid(std::string)`: clean the
input, classify by `bitCount = 4 * length`, wrap 16- and 32-bit forms in the
standard base parts, reject every other length, and dashify the result. -/
def gattUuidFromString (s : List Nat) : GattUuid :=
  let c := clean s
  let bc := c.length * 4
  if bc = 16 then
    { uuid := dashify (kGattStandardUuidPart1 ++ c ++ kGattStandardUuidSuffix), bitCount := 16 }
  else if bc = 32 then
    { uuid := dashify (c ++ kGattStandardUuidSuffix), bitCount := 32 }
  else if bc ≠ 128 then
    { uuid := dashify [], bitCount := 0 }
  else
    { uuid := dashify c, bitCount := bc }

/-- Embedding of `GattUuid(const uint16_t part)`: `snprintf("%04x", part)`
between the standard prefix and suffix; the `uint16_t` parameter is the
value modulo `2^16`.  Note the source applies no `dashify` here: the dashes
come from the suffix constant itself. -/
def gattUuidFromU16 (part : Nat) : GattUuid :=
  { uuid := kGattStandardUuidPart1 ++ hexMin 4 (part % 65536) ++ kGattStandardUuidSuffix,
    bitCount := 16 }

/-- Embedding of `GattUuid(const uint32_t part)`: `snprintf("%04x", part)`
(minimum width 4, exactly as the source writes it) followed by the standard
suffix; the `uint32_t` parameter is the value modulo `2^32`. -/
def gattUuidFromU32 (part : Nat) : GattUuid :=
  { uuid := hexMin 4 (part % 4294967296) ++ kGattStandardUuidSuffix,
    bitCount := 32 }

/-- Embedding of the five-part constructor
`GattUuid(uint32_t, uint16_t, uint16_t, uint16_t, uint64_t)`:
`part5a = (part5 >> 4) & 0xffffffff`, `part5b = part5 & 0xffff`, rendered
with format `"%08x-%04x-%04x-%04x-%08x%04x"`. -/
def gattUuidFrom5 (part1 part2 part3 part4 part5 : Nat) : GattUuid :=
  let p5 := part5 % 18446744073709551616
  let part5a := (p5 / 16) % 4294967296
  let part5b := p5 % 65536
  { uuid := hexMin 8 (part1 % 4294967296) ++ 45 :: (hexMin 4 (part2 % 65536) ++
      45 :: (hexMin 4 (part3 % 65536) ++ 45 :: (hexMin 4 (part4 % 65536) ++
      45 :: (hexMin 8 part5a ++ hexMin 4 part5b)))),
    bitCount := 128 }

/-- Embedding of `GattUuid::toString16`: empty if `uuid` is empty, else
`uuid.substr(4, 4)`. -/
def GattUuid.toString16 (g : GattUuid) : List Nat :=
  if g.uuid = [] then g.uuid else (g.uuid.drop 4).take 4

/-- Embedding of `GattUuid::toString32`: empty if `uuid` is empty, else
`uuid.substr(0, 8)`. -/
def GattUuid.toString32 (g : GattUuid) : List Nat :=
  if g.uuid = [] then g.uuid else g.uuid.take 8

/-- Embedding of `GattUuid::toString128`: the stored string as-is. -/
def GattUuid.toString128 (g : GattUuid) : List Nat := g.uuid

/-- Embedding of `GattUuid::toString`: dispatch on the recorded bit count. -/
def GattUuid.toString (g : GattUuid) : List Nat :=
  if g.bitCount = 16 then g.toString16
  else if g.bitCount = 32 then g.toString32
  else g.toString128

/-- Embedding of `GattUuid::getBitCount`. -/
def GattUuid.getBitCount (g : GattUuid) : Nat := g.bitCount

/-- Numeric value of a hex digit byte (either case); non-hex bytes give 0.
Used to state which machine integer is "the hex number" a string denotes. -/
def hexCharVal (c : Nat) : Nat :=
  if 48 ≤ c ∧ c ≤ 57 then c - 48
  else if 97 ≤ c ∧ c ≤ 102 then c - 87
  else if 65 ≤ c ∧ c ≤ 70 then c - 55
  else 0

/-- Value of a big-endian hex digit string. -/
def hexToNat (l : List Nat) : Nat := l.foldl (fun acc c => acc * 16 + hexCharVal c) 0

/-- Follows the spec's wording for the Dashifier: insert a separator, in
order, at each offset of the progressively modified string, skipping an
insertion once the string is too short at that step. -/
def insertDashesSpec : List Nat → List Nat → List Nat
  | l, [] => l
  | l, i :: rest => insertDashesSpec (if i < l.length then insertAt l i 45 else l) rest

/-- Classifier for canonical-form well-formedness: 0 for the separator
`'-'`, 1 for a lowercase hex digit, 2 for anything else. -/
def charClass (c : Nat) : Nat := if c = 45 then 0 else if isHexLowerB c then 1 else 2

/-- Class pattern of a well-formed fully-dashed 128-bit identifier: 36
characters, lowercase hex digits everywhere except separators at indices
8, 13, 18 and 23. -/
def uuidShape : List Nat :=
  List.replicate 8 1 ++ 0 :: (List.replicate 4 1 ++ 0 :: (List.replicate 4 1 ++
    0 :: (List.replicate 4 1 ++ 0 :: List.replicate 12 1)))

/-- A string is a well-formed fully-dashed 128-bit identifier iff its
character classes match `uuidShape` exactly. -/
def isUuidWellFormed (l : List Nat) : Bool := decide (l.map charClass = uuidShape)

/-- Claim C1 (code_bug evidence). The source's 32-bit constructor documents
that the leading block is "the 8-digit hex value of part", but formats with
`%04x`; at the failing input `"0000180a"` (hex value 0x180a) the text
constructor yields the full canonical string while the 32-bit integer
constructor yields a 32-character string missing the leading zeros, so the
two canonical strings differ. -/
theorem text_vs_u32_at_failing_input :
    (clean (bytes "0000180a")).length = 8 ∧
    hexToNat (clean (bytes "0000180a")) = 0x180a ∧
    (gattUuidFromString (bytes "0000180a")).uuid =
      bytes "0000180a-0000-1000-8000-00805f9b34fb" ∧
    (gattUuidFromU32 0x180a).uuid = bytes "180a-0000-1000-8000-00805f9b34fb" ∧
    (gattUuidFromString (bytes "0000180a")).uuid ≠ (gattUuidFromU32 0x180a).uuid := by
  decide

/-- Claim C2 (counterexample). The 32-bit integer constructor at value
0x180a records bit count 32 yet produces a 32-character canonical string
that is not a well-formed fully-dashed 128-bit identifier. -/
theorem uuid_wellformed_cex :
    (gattUuidFromU32 0x180a).bitCount = 32 ∧
    (gattUuidFromU32 0x180a).uuid.length = 32 ∧
    isUuidWellFormed (gattUuidFromU32 0x180a).uuid = false := by
  decide

/-- Claim C3 (code_bug evidence). At the failing input
`part5 = 0x123456789abc` (parts 1-4 zero) the five-part constructor renders
the final block as `"456789ab9abc"` (hex of bits 4..35 followed by hex of
bits 0..15), not as the low 48 bits zero-padded to 12 hex digits, which
would be `"123456789abc"`. -/
theorem fivefield_last12_at_failing_input :
    (gattUuidFrom5 0 0 0 0 0x123456789abc).uuid.drop 24 = bytes "456789ab9abc" ∧
    hexMin 12 (0x123456789abc % 2 ^ 48) = bytes "123456789abc" ∧
    (gattUuidFrom5 0 0 0 0 0x123456789abc).uuid.drop 24 ≠
      hexMin 12 (0x123456789abc % 2 ^ 48) := by
  decide

/-- Claim C4. There is a 32-bit value below 0x10000000 (here 0x180a) whose
constructed identifier has a canonical string shorter than 36 characters,
and whose 32-bit string view — the first 8 characters, which is also what
the width-dispatching renderer returns since the bit count is 32 — contains
a `'-'` (byte 45) rather than 8 hex digits. -/
theorem u32_short_canonical_and_dashed_view :
    ∃ v, v < 0x10000000 ∧
      (gattUuidFromU32 v).uuid.length < 36 ∧
      GattUuid.toString (gattUuidFromU32 v) = GattUuid.toString32 (gattUuidFromU32 v) ∧
      45 ∈ GattUuid.toString32 (gattUuidFromU32 v) ∧
      (GattUuid.toString32 (gattUuidFromU32 v)).all isHexLowerB = false := by
  exact ⟨0x180a, by decide⟩

/-- Claim C10. The known-answer cases: `"0000180A"` yields the canonical
string `"0000180a-0000-1000-8000-00805f9b34fb"` with bit count 32;
`"2901"` yields `"00002901-0000-1000-8000-00805f9b34fb"` with bit count 16;
and the 16-bit integer 0x2901 yields the same canonical string as the
`"2901"` text case. -/
theorem known_answer_cases :
    (gattUuidFromString (bytes "0000180A")).uuid =
      bytes "0000180a-0000-1000-8000-00805f9b34fb" ∧
    (gattUuidFromString (bytes "0000180A")).bitCount = 32 ∧
    (gattUuidFromString (bytes "2901")).uuid =
      bytes "00002901-0000-1000-8000-00805f9b34fb" ∧
    (gattUuidFromString (bytes "2901")).bitCount = 16 ∧
    (gattUuidFromU16 0x2901).uuid = (gattUuidFromString (bytes "2901")).uuid := by
  decide

theorem toLowerB_of_hexLower {c : Nat} (h : isHexLowerB c = true) : toLowerB c = c := by
  simp only [isHexLowerB, decide_eq_true_eq] at h
  simp only [toLowerB]
  split <;> omega

theorem isHexB_of_hexLower {c : Nat} (h : isHexLowerB c = true) : isHexB c = true := by
  simp only [isHexLowerB, decide_eq_true_eq] at h
  simp only [isHexB, decide_eq_true_eq]
  omega

theorem hexLower_of_mem_clean {x : Nat} {s : List Nat} (h : x ∈ clean s) :
    isHexLowerB x = true := by
  simp only [clean, List.mem_filter, List.mem_map] at h
  obtain ⟨⟨d, _, rfl⟩, hx⟩ := h
  simp only [isHexB, decide_eq_true_eq] at hx
  simp only [isHexLowerB, decide_eq_true_eq]
  simp only [toLowerB] at hx ⊢
  by_cases hc : 65 ≤ d ∧ d ≤ 90
  · rw [if_pos hc] at hx ⊢; omega
  · rw [if_neg hc] at hx ⊢; omega

theorem clean_append (a b : List Nat) : clean (a ++ b) = clean a ++ clean b := by
  simp [clean, List.filter_append]

theorem clean_of_hexLower {l : List Nat} (h : ∀ x ∈ l, isHexLowerB x = true) :
    clean l = l := by
  have hm : l.map toLowerB = l := by
    conv_rhs => rw [← List.map_id l]
    exact List.map_congr_left fun x hx => toLowerB_of_hexLower (h x hx)
  simp only [clean, hm]
  exact List.filter_eq_self.mpr fun x hx => isHexB_of_hexLower (h x hx)

theorem clean_clean (s : List Nat) : clean (clean s) = clean s :=
  clean_of_hexLower fun _ hx => hexLower_of_mem_clean hx

theorem clean_insertAt_dash (l : List Nat) (i : Nat) :
    clean (insertAt l i 45) = clean l := by
  have h45 : clean [45] = [] := by decide
  rw [insertAt, ← List.singleton_append, clean_append, clean_append, h45,
    List.nil_append, ← clean_append, List.take_append_drop]

/-- Claim C6. Sanitizing the dashified form of any input recovers exactly
the sanitized input: `clean (dashify s) = clean s` for every string `s`. -/
theorem clean_dashify (s : List Nat) : clean (dashify s) = clean s := by
  have hstep : ∀ (l : List Nat) (i : Nat),
      clean (if i < l.length then insertAt l i 45 else l) = clean l := by
    intro l i
    split
    · exact clean_insertAt_dash l i
    · rfl
  simp only [dashify]
  rw [hstep, hstep, hstep, hstep, clean_clean]

theorem insertAt_exact {a : List Nat} {i : Nat} (b : List Nat) (h : a.length = i) :
    insertAt (a ++ b) i 45 = a ++ 45 :: b := by
  rw [insertAt, ← h, List.take_left, List.drop_left]

theorem dashify_parts {t a b c d e : List Nat}
    (ht : clean t = a ++ (b ++ (c ++ (d ++ e))))
    (ha : a.length = 8) (hb : b.length = 4) (hc : c.length = 4)
    (hd : d.length = 4) (he : e.length = 12) :
    dashify t = a ++ 45 :: (b ++ 45 :: (c ++ 45 :: (d ++ 45 :: e))) := by
  simp only [dashify, ht]
  have l0 : (a ++ (b ++ (c ++ (d ++ e)))).length = 32 := by
    simp [List.length_append, ha, hb, hc, hd, he]
  rw [if_pos (by omega : 8 < (a ++ (b ++ (c ++ (d ++ e)))).length),
    insertAt_exact _ ha]
  have e1 : a ++ 45 :: (b ++ (c ++ (d ++ e))) = (a ++ 45 :: b) ++ (c ++ (d ++ e)) := by
    simp [List.append_assoc]
  have l1 : (a ++ 45 :: b).length = 13 := by simp only [List.length_append, List.length_cons]; omega
  rw [e1, if_pos (by simp only [List.length_append, List.length_cons] at l1 ⊢; omega : 13 < ((a ++ 45 :: b) ++ (c ++ (d ++ e))).length),
    insertAt_exact _ l1]
  have e2 : (a ++ 45 :: b) ++ 45 :: (c ++ (d ++ e)) = ((a ++ 45 :: b) ++ 45 :: c) ++ (d ++ e) := by
    simp [List.append_assoc]
  have l2 : ((a ++ 45 :: b) ++ 45 :: c).length = 18 := by simp only [List.length_append, List.length_cons] at l1 ⊢; omega
  rw [e2, if_pos (by simp only [List.length_append, List.length_cons] at l2 ⊢; omega : 18 < (((a ++ 45 :: b) ++ 45 :: c) ++ (d ++ e)).length),
    insertAt_exact _ l2]
  have e3 : ((a ++ 45 :: b) ++ 45 :: c) ++ 45 :: (d ++ e) = (((a ++ 45 :: b) ++ 45 :: c) ++ 45 :: d) ++ e := by
    simp [List.append_assoc]
  have l3 : (((a ++ 45 :: b) ++ 45 :: c) ++ 45 :: d).length = 23 := by simp only [List.length_append, List.length_cons] at l2 ⊢; omega
  rw [e3, if_pos (by simp only [List.length_append, List.length_cons] at l3 ⊢; omega : 23 < ((((a ++ 45 :: b) ++ 45 :: c) ++ 45 :: d) ++ e).length),
    insertAt_exact _ l3]
  simp [List.append_assoc]

theorem hexDigit_hexLower {d : Nat} (h : d < 16) : isHexLowerB (hexDigit d) = true := by
  simp only [hexDigit, isHexLowerB, decide_eq_true_eq]
  split <;> omega

theorem hexRevAux_hexLower {f n x : Nat} (h : x ∈ hexRevAux f n) :
    isHexLowerB x = true := by
  induction f generalizing n with
  | zero => simp [hexRevAux] at h
  | succ f ih =>
    rw [hexRevAux] at h
    split at h
    · simp at h
    · rcases List.mem_cons.mp h with h | h
      · exact h ▸ hexDigit_hexLower (Nat.mod_lt _ (by omega))
      · exact ih h

theorem hexMin_hexLower {w n x : Nat} (h : x ∈ hexMin w n) : isHexLowerB x = true := by
  simp only [hexMin, List.mem_append, List.mem_replicate, List.mem_reverse] at h
  rcases h with ⟨-, rfl⟩ | h
  · decide
  · exact hexRevAux_hexLower h

theorem hexRevAux_len_le {f k n : Nat} (hk : k ≤ f) (h : n < 16 ^ k) :
    (hexRevAux f n).length ≤ k := by
  induction f generalizing k n with
  | zero => simp [hexRevAux]
  | succ f ih =>
    rw [hexRevAux]
    split
    · simp
    · match k, hk with
      | 0, _ => omega
      | k + 1, hk =>
        simp only [List.length_cons]
        have : n / 16 < 16 ^ k := by
          rw [Nat.div_lt_iff_lt_mul (by omega)]
          calc n < 16 ^ (k + 1) := h
            _ = 16 ^ k * 16 := by rw [Nat.pow_succ]
        exact Nat.succ_le_succ (ih (by omega) this)

theorem hexRevAux_len_gt {f k n : Nat} (hk : k < f) (h : 16 ^ k ≤ n) :
    k < (hexRevAux f n).length := by
  induction f generalizing k n with
  | zero => omega
  | succ f ih =>
    have hn : n ≠ 0 := by
      have h1 : 0 < 16 ^ k := Nat.pow_pos (by omega)
      omega
    rw [hexRevAux, if_neg hn]
    match k, hk with
    | 0, _ => simp
    | k + 1, hk =>
      simp only [List.length_cons]
      have hdiv : 16 ^ k ≤ n / 16 := by
        rw [Nat.le_div_iff_mul_le (by omega)]
        calc 16 ^ k * 16 = 16 ^ (k + 1) := (Nat.pow_succ 16 k).symm
          _ ≤ n := h
      exact Nat.succ_lt_succ (ih (by omega) hdiv)

theorem hexMin_length_of_le {w n : Nat} (h : (hexRevAux 16 n).length ≤ w) :
    (hexMin w n).length = w := by
  simp only [hexMin, List.length_append, List.length_replicate, List.length_reverse]
  omega

theorem hexMin_length_of_ge {w n : Nat} (h : w ≤ (hexRevAux 16 n).length) :
    (hexMin w n).length = (hexRevAux 16 n).length := by
  simp only [hexMin, List.length_append, List.length_replicate, List.length_reverse]
  omega

theorem hexMin_4_length_of_lt {n : Nat} (h : n < 65536) : (hexMin 4 n).length = 4 :=
  hexMin_length_of_le (hexRevAux_len_le (by omega) (by simpa using h))

theorem hexMin_8_length_of_lt {n : Nat} (h : n < 4294967296) : (hexMin 8 n).length = 8 :=
  hexMin_length_of_le (hexRevAux_len_le (by omega) (by simpa using h))

theorem hexMin_4_length_of_big {n : Nat} (hlo : 268435456 ≤ n) (hhi : n < 4294967296) :
    (hexMin 4 n).length = 8 := by
  have h8 : (hexRevAux 16 n).length ≤ 8 := hexRevAux_len_le (by omega) (by simpa using hhi)
  have h7 : 7 < (hexRevAux 16 n).length := hexRevAux_len_gt (by omega) (by simpa using hlo)
  rw [hexMin_length_of_ge (by omega)]
  omega

theorem hexRevAux_fuel {f g n : Nat} (h : n < 16 ^ f) (hfg : f ≤ g) :
    hexRevAux g n = hexRevAux f n := by
  induction f generalizing g n with
  | zero =>
    have : n = 0 := by simpa using h
    subst this
    cases g <;> simp [hexRevAux]
  | succ f ih =>
    match g, hfg with
    | g + 1, hfg =>
      rw [hexRevAux, hexRevAux]
      split
      · rfl
      · have hdiv : n / 16 < 16 ^ f := by
          rw [Nat.div_lt_iff_lt_mul (by omega)]
          calc n < 16 ^ (f + 1) := h
            _ = 16 ^ f * 16 := Nat.pow_succ 16 f
        rw [ih hdiv (by omega)]

theorem hexMin_succ_step {k n : Nat} (h : n < 16 ^ (k + 1)) (hk : k + 1 ≤ 16) :
    hexMin (k + 1) n = hexMin k (n / 16) ++ [hexDigit (n % 16)] := by
  by_cases hn : n = 0
  · subst hn
    have h0 : hexRevAux 16 0 = [] := rfl
    simp only [Nat.zero_div, Nat.zero_mod, hexMin, h0, List.reverse_nil, List.length_nil,
      Nat.sub_zero, List.append_nil]
    rw [List.replicate_succ']
    norm_num [hexDigit]
  · have hdiv : n / 16 < 16 ^ k := by
      rw [Nat.div_lt_iff_lt_mul (by omega)]
      calc n < 16 ^ (k + 1) := h
        _ = 16 ^ k * 16 := Nat.pow_succ 16 k
    have h16 : hexRevAux 16 n = hexDigit (n % 16) :: hexRevAux 15 (n / 16) := by
      rw [hexRevAux, if_neg hn]
    have hb : n / 16 < 16 ^ 15 :=
      lt_of_lt_of_le hdiv (Nat.pow_le_pow_right (by omega) (by omega))
    have hfuel : hexRevAux 15 (n / 16) = hexRevAux 16 (n / 16) :=
      (hexRevAux_fuel hb (by omega)).symm
    simp only [hexMin, h16, hfuel, List.reverse_cons, List.length_append,
      List.length_reverse, List.length_cons, List.length_nil, Nat.zero_add]
    rw [show k + 1 - ((hexRevAux 16 (n / 16)).length + 1) =
        k - (hexRevAux 16 (n / 16)).length from by omega, List.append_assoc]

theorem hexCharVal_lt (c : Nat) : hexCharVal c < 16 := by
  simp only [hexCharVal]
  split <;> [omega; split <;> [omega; split <;> omega]]

theorem hexToNat_append_digit (l : List Nat) (d : Nat) :
    hexToNat (l ++ [d]) = 16 * hexToNat l + hexCharVal d := by
  simp [hexToNat, List.foldl_append]
  ring

theorem hexToNat_lt (l : List Nat) : hexToNat l < 16 ^ l.length := by
  induction l using List.reverseRecOn with
  | nil => simp [hexToNat]
  | append_singleton l d ih =>
    rw [hexToNat_append_digit]
    have h1 := hexCharVal_lt d
    simp only [List.length_append, List.length_cons, List.length_nil, Nat.zero_add,
      Nat.pow_succ]
    omega

theorem hexDigit_hexCharVal {d : Nat} (h : isHexLowerB d = true) :
    hexDigit (hexCharVal d) = d := by
  simp only [isHexLowerB, decide_eq_true_eq] at h
  rcases h with h | h
  · rw [hexCharVal, if_pos (by omega), hexDigit, if_pos (by omega)]
    omega
  · rw [hexCharVal, if_neg (by omega), if_pos (by omega), hexDigit, if_neg (by omega)]
    omega

theorem hexMin_roundtrip {l : List Nat} (hhex : ∀ x ∈ l, isHexLowerB x = true)
    (hlen : l.length ≤ 16) : hexMin l.length (hexToNat l) = l := by
  induction l using List.reverseRecOn with
  | nil => rfl
  | append_singleton l d ih =>
    have hd : isHexLowerB d = true := hhex d (by simp)
    have hl : ∀ x ∈ l, isHexLowerB x = true := fun x hx => hhex x (by simp [hx])
    have hlen2 : l.length ≤ 16 := by
      simp only [List.length_append, List.length_cons, List.length_nil] at hlen
      omega
    have hval := hexToNat_lt l
    have hvd := hexCharVal_lt d
    have hlt : hexToNat (l ++ [d]) < 16 ^ (l.length + 1) := by
      rw [hexToNat_append_digit, Nat.pow_succ]
      omega
    have hlen3 : (l ++ [d]).length = l.length + 1 := by simp
    rw [hlen3, hexMin_succ_step hlt (by omega)]
    rw [hexToNat_append_digit]
    have hdivq : (16 * hexToNat l + hexCharVal d) / 16 = hexToNat l := by omega
    have hmodq : (16 * hexToNat l + hexCharVal d) % 16 = hexCharVal d := by omega
    rw [hdivq, hmodq, ih hl hlen2, hexDigit_hexCharVal hd]

theorem map_charClass_hex {l : List Nat} (h : ∀ x ∈ l, isHexLowerB x = true) :
    l.map charClass = List.replicate l.length 1 := by
  induction l with
  | nil => rfl
  | cons x l ih =>
    have hx : isHexLowerB x = true := h x (by simp)
    have hx45 : x ≠ 45 := by
      simp only [isHexLowerB, decide_eq_true_eq] at hx
      omega
    simp only [List.map_cons, List.length_cons, List.replicate_succ]
    rw [charClass, if_neg hx45, if_pos hx, ih fun y hy => h y (by simp [hy])]

theorem wf_parts {a b c d e : List Nat}
    (ha : a.length = 8) (hb : b.length = 4) (hc : c.length = 4)
    (hd : d.length = 4) (he : e.length = 12)
    (hx : ∀ x ∈ a ++ (b ++ (c ++ (d ++ e))), isHexLowerB x = true) :
    isUuidWellFormed (a ++ 45 :: (b ++ 45 :: (c ++ 45 :: (d ++ 45 :: e)))) = true := by
  have hxa : ∀ x ∈ a, isHexLowerB x = true := fun x h => hx x (by simp [h])
  have hxb : ∀ x ∈ b, isHexLowerB x = true := fun x h => hx x (by simp [h])
  have hxc : ∀ x ∈ c, isHexLowerB x = true := fun x h => hx x (by simp [h])
  have hxd : ∀ x ∈ d, isHexLowerB x = true := fun x h => hx x (by simp [h])
  have hxe : ∀ x ∈ e, isHexLowerB x = true := fun x h => hx x (by simp [h])
  simp only [isUuidWellFormed, decide_eq_true_eq, List.map_append, List.map_cons]
  rw [map_charClass_hex hxa, map_charClass_hex hxb, map_charClass_hex hxc,
    map_charClass_hex hxd, map_charClass_hex hxe, ha, hb, hc, hd, he]
  rfl

theorem clean_suffix : clean kGattStandardUuidSuffix =
    bytes "0000" ++ (bytes "1000" ++ (bytes "8000" ++ bytes "00805f9b34fb")) := by decide

theorem suffix_shape : kGattStandardUuidSuffix =
    45 :: (bytes "0000" ++ 45 :: (bytes "1000" ++ 45 :: (bytes "8000" ++
      45 :: bytes "00805f9b34fb"))) := by decide

theorem dashify_hex8_suffix {u : List Nat} (hu : u.length = 8)
    (hhex : ∀ x ∈ u, isHexLowerB x = true) :
    dashify (u ++ kGattStandardUuidSuffix) = u ++ kGattStandardUuidSuffix := by
  rw [dashify_parts (t := u ++ kGattStandardUuidSuffix) (a := u) (b := bytes "0000")
    (c := bytes "1000") (d := bytes "8000") (e := bytes "00805f9b34fb")
    (by rw [clean_append, clean_of_hexLower hhex, clean_suffix])
    hu (by decide) (by decide) (by decide) (by decide), suffix_shape]

theorem hexLower_suffix_parts :
    ∀ x ∈ bytes "0000" ++ (bytes "1000" ++ (bytes "8000" ++ bytes "00805f9b34fb")),
      isHexLowerB x = true := by decide

theorem wf_hex8_suffix {u : List Nat} (hu : u.length = 8)
    (hhex : ∀ x ∈ u, isHexLowerB x = true) :
    isUuidWellFormed (u ++ kGattStandardUuidSuffix) = true := by
  rw [suffix_shape]
  exact wf_parts hu (by decide) (by decide) (by decide) (by decide)
    (fun x hx => by
      rcases List.mem_append.mp hx with h | h
      · exact hhex x h
      · exact hexLower_suffix_parts x h)

theorem dashify_hex32 {s : List Nat} (h : (clean s).length = 32) :
    dashify (clean s) =
      (clean s).take 8 ++ 45 :: (((clean s).drop 8).take 4 ++
        45 :: ((((clean s).drop 8).drop 4).take 4 ++
        45 :: (((((clean s).drop 8).drop 4).drop 4).take 4 ++
        45 :: ((((clean s).drop 8).drop 4).drop 4).drop 4))) := by
  apply dashify_parts
  · rw [clean_clean]
    conv_lhs => rw [← List.take_append_drop 8 (clean s),
      ← List.take_append_drop 4 ((clean s).drop 8),
      ← List.take_append_drop 4 (((clean s).drop 8).drop 4),
      ← List.take_append_drop 4 ((((clean s).drop 8).drop 4).drop 4)]
  · simp [List.length_take, h]
  · simp [List.length_take, List.length_drop, h]
  · simp [List.length_take, List.length_drop, h]
  · simp [List.length_take, List.length_drop, h]
  · simp [List.length_drop, h]

theorem wf_from_clean32 {s : List Nat} (h : (clean s).length = 32) :
    isUuidWellFormed (dashify (clean s)) = true := by
  rw [dashify_hex32 h]
  have hsub : ∀ x ∈ (clean s).take 8 ++ (((clean s).drop 8).take 4 ++
      ((((clean s).drop 8).drop 4).take 4 ++ (((((clean s).drop 8).drop 4).drop 4).take 4 ++
      ((((clean s).drop 8).drop 4).drop 4).drop 4))), isHexLowerB x = true := by
    intro x hx
    apply hexLower_of_mem_clean (s := s)
    rcases List.mem_append.mp hx with h1 | h1
    · exact List.take_subset _ _ h1
    rcases List.mem_append.mp h1 with h2 | h2
    · exact List.drop_subset _ _ (List.take_subset _ _ h2)
    rcases List.mem_append.mp h2 with h3 | h3
    · exact List.drop_subset _ _ (List.drop_subset _ _ (List.take_subset _ _ h3))
    rcases List.mem_append.mp h3 with h4 | h4
    · exact List.drop_subset _ _ (List.drop_subset _ _ (List.drop_subset _ _ (List.take_subset _ _ h4)))
    · exact List.drop_subset _ _ (List.drop_subset _ _ (List.drop_subset _ _ (List.drop_subset _ _ h4)))
  exact wf_parts (by simp [List.length_take, h]) (by simp [List.length_take, List.length_drop, h])
    (by simp [List.length_take, List.length_drop, h]) (by simp [List.length_take, List.length_drop, h])
    (by simp [List.length_drop, h]) hsub

theorem hexLower_part1 : ∀ x ∈ kGattStandardUuidPart1, isHexLowerB x = true := by decide

theorem hexMin_hexLower_mem {w n : Nat} : ∀ x ∈ hexMin w n, isHexLowerB x = true :=
  fun _ hx => hexMin_hexLower hx

theorem wf_u16 (part : Nat) : isUuidWellFormed (gattUuidFromU16 part).uuid = true := by
  have hlen : (kGattStandardUuidPart1 ++ hexMin 4 (part % 65536)).length = 8 := by
    have := hexMin_4_length_of_lt (n := part % 65536) (Nat.mod_lt _ (by omega))
    simp [kGattStandardUuidPart1, bytes, this]
  have hhex : ∀ x ∈ kGattStandardUuidPart1 ++ hexMin 4 (part % 65536), isHexLowerB x = true := by
    intro x hx
    rcases List.mem_append.mp hx with h | h
    · exact hexLower_part1 x h
    · exact hexMin_hexLower h
  have := wf_hex8_suffix hlen hhex
  simpa [gattUuidFromU16, List.append_assoc] using this

theorem wf_u32_of_big (part : Nat) (h : 268435456 ≤ part % 4294967296) :
    isUuidWellFormed (gattUuidFromU32 part).uuid = true := by
  have hlen : (hexMin 4 (part % 4294967296)).length = 8 :=
    hexMin_4_length_of_big h (Nat.mod_lt _ (by omega))
  exact wf_hex8_suffix hlen hexMin_hexLower_mem

theorem wf_from5 (p1 p2 p3 p4 p5 : Nat) :
    isUuidWellFormed (gattUuidFrom5 p1 p2 p3 p4 p5).uuid = true := by
  simp only [gattUuidFrom5]
  have h1 : (hexMin 8 (p1 % 4294967296)).length = 8 :=
    hexMin_8_length_of_lt (Nat.mod_lt _ (by omega))
  have h2 : (hexMin 4 (p2 % 65536)).length = 4 :=
    hexMin_4_length_of_lt (Nat.mod_lt _ (by omega))
  have h3 : (hexMin 4 (p3 % 65536)).length = 4 :=
    hexMin_4_length_of_lt (Nat.mod_lt _ (by omega))
  have h4 : (hexMin 4 (p4 % 65536)).length = 4 :=
    hexMin_4_length_of_lt (Nat.mod_lt _ (by omega))
  have h5a : (hexMin 8 (p5 % 18446744073709551616 / 16 % 4294967296)).length = 8 :=
    hexMin_8_length_of_lt (Nat.mod_lt _ (by omega))
  have h5b : (hexMin 4 (p5 % 18446744073709551616 % 65536)).length = 4 :=
    hexMin_4_length_of_lt (Nat.mod_lt _ (by omega))
  have he : (hexMin 8 (p5 % 18446744073709551616 / 16 % 4294967296) ++
      hexMin 4 (p5 % 18446744073709551616 % 65536)).length = 12 := by
    simp [List.length_append, h5a, h5b]
  have hxe : ∀ x ∈ hexMin 8 (p5 % 18446744073709551616 / 16 % 4294967296) ++
      hexMin 4 (p5 % 18446744073709551616 % 65536), isHexLowerB x = true := by
    intro x hx
    rcases List.mem_append.mp hx with h | h <;> exact hexMin_hexLower h
  apply wf_parts h1 h2 h3 h4 he
  intro x hx
  rcases List.mem_append.mp hx with h | h
  · exact hexMin_hexLower h
  rcases List.mem_append.mp h with h | h
  · exact hexMin_hexLower h
  rcases List.mem_append.mp h with h | h
  · exact hexMin_hexLower h
  rcases List.mem_append.mp h with h | h
  · exact hexMin_hexLower h
  · exact hxe x h

theorem wf_fromString (s : List Nat)
    (h : (gattUuidFromString s).bitCount = 16 ∨ (gattUuidFromString s).bitCount = 32 ∨
      (gattUuidFromString s).bitCount = 128) :
    isUuidWellFormed (gattUuidFromString s).uuid = true := by
  by_cases h16 : (clean s).length * 4 = 16
  · have hlen4 : (clean s).length = 4 := by omega
    have hu : (kGattStandardUuidPart1 ++ clean s).length = 8 := by
      simp [kGattStandardUuidPart1, bytes, hlen4]
    have hhex : ∀ x ∈ kGattStandardUuidPart1 ++ clean s, isHexLowerB x = true := by
      intro x hx
      rcases List.mem_append.mp hx with hm | hm
      · exact hexLower_part1 x hm
      · exact hexLower_of_mem_clean hm
    simp only [gattUuidFromString, if_pos h16]
    rw [dashify_hex8_suffix hu hhex]
    exact wf_hex8_suffix hu hhex
  · by_cases h32 : (clean s).length * 4 = 32
    · have hlen8 : (clean s).length = 8 := by omega
      have hhex : ∀ x ∈ clean s, isHexLowerB x = true :=
        fun x hx => hexLower_of_mem_clean hx
      simp only [gattUuidFromString, if_neg h16, if_pos h32]
      rw [dashify_hex8_suffix hlen8 hhex]
      exact wf_hex8_suffix hlen8 hhex
    · by_cases h128 : (clean s).length * 4 = 128
      · have hlen32 : (clean s).length = 32 := by omega
        simp only [gattUuidFromString, if_neg h16, if_neg h32, if_neg (by omega : ¬(clean s).length * 4 ≠ 128)]
        exact wf_from_clean32 hlen32
      · exfalso
        simp only [gattUuidFromString, if_neg h16, if_neg h32, if_pos (by omega : (clean s).length * 4 ≠ 128)] at h
        omega

/-- Claim C2 (amended). The well-formedness invariant as amended by the
counterexample: identifiers from the text path (whenever the recorded bit
count is 16, 32 or 128), from the 16-bit integer path, and from the
five-field path always have a well-formed fully-dashed canonical string,
and so does the 32-bit integer path exactly when the masked value is at
least 0x10000000 (so that `%04x` emits all 8 digits). -/
theorem uuid_wellformed_amended :
    (∀ s : List Nat,
      (gattUuidFromString s).bitCount = 16 ∨ (gattUuidFromString s).bitCount = 32 ∨
        (gattUuidFromString s).bitCount = 128 →
      isUuidWellFormed (gattUuidFromString s).uuid = true) ∧
    (∀ part : Nat, isUuidWellFormed (gattUuidFromU16 part).uuid = true) ∧
    (∀ part : Nat, 268435456 ≤ part % 4294967296 →
      isUuidWellFormed (gattUuidFromU32 part).uuid = true) ∧
    (∀ p1 p2 p3 p4 p5 : Nat, isUuidWellFormed (gattUuidFrom5 p1 p2 p3 p4 p5).uuid = true) :=
  ⟨wf_fromString, wf_u16, wf_u32_of_big, wf_from5⟩

/-- Witness for claim C2's amended theorem at concrete inputs. -/
theorem uuid_wellformed_amended_witness :
    isUuidWellFormed (gattUuidFromString (bytes "0000180A")).uuid = true ∧
    isUuidWellFormed (gattUuidFromU16 0x2901).uuid = true ∧
    isUuidWellFormed (gattUuidFromU32 0x1800180a).uuid = true ∧
    isUuidWellFormed (gattUuidFrom5 1 2 3 4 5).uuid = true :=
  ⟨uuid_wellformed_amended.1 (bytes "0000180A") (by decide),
   uuid_wellformed_amended.2.1 0x2901,
   uuid_wellformed_amended.2.2.1 0x1800180a (by decide),
   uuid_wellformed_amended.2.2.2 1 2 3 4 5⟩

/-- Claim C5. Bits 36 through 47 of the fifth argument never influence the
five-part constructor: two calls agreeing on the four leading fields and on
bits 0..35 of the fifth field (value modulo `2^36`) produce identical
canonical strings. -/
theorem fivefield_ignores_bits36to47 (p1 p2 p3 p4 v w : Nat)
    (h : v % 68719476736 = w % 68719476736) :
    (gattUuidFrom5 p1 p2 p3 p4 v).uuid = (gattUuidFrom5 p1 p2 p3 p4 w).uuid := by
  have h1 : v % 18446744073709551616 / 16 % 4294967296 =
      w % 18446744073709551616 / 16 % 4294967296 := by omega
  have h2 : v % 18446744073709551616 % 65536 = w % 18446744073709551616 % 65536 := by omega
  simp only [gattUuidFrom5, h1, h2]

/-- Witness for claim C5 at concrete inputs: the fifth-field values 0 and
`2^36` agree on bits 0..35 yet differ within their low 48 bits. -/
theorem fivefield_ignores_bits36to47_witness :
    (gattUuidFrom5 0 0 0 0 0).uuid = (gattUuidFrom5 0 0 0 0 68719476736).uuid ∧
    0 % 281474976710656 ≠ 68719476736 % 281474976710656 :=
  ⟨fivefield_ignores_bits36to47 0 0 0 0 0 68719476736 (by decide), by decide⟩

/-- Claim C7. For every input whose cleaned form is exactly 4 hex digits,
text construction yields the same canonical string as construction from
the 16-bit integer whose value is that hex number. -/
theorem text16_matches_u16 (s : List Nat) (h : (clean s).length = 4) :
    (gattUuidFromString s).uuid = (gattUuidFromU16 (hexToNat (clean s))).uuid := by
  have hhex : ∀ x ∈ clean s, isHexLowerB x = true := fun x hx => hexLower_of_mem_clean hx
  have hval : hexToNat (clean s) < 65536 := by
    have hlt := hexToNat_lt (clean s)
    rw [h] at hlt
    simpa using hlt
  have hmod : hexToNat (clean s) % 65536 = hexToNat (clean s) := Nat.mod_eq_of_lt hval
  have hrt : hexMin 4 (hexToNat (clean s)) = clean s := by
    have hr := hexMin_roundtrip hhex (by omega : (clean s).length ≤ 16)
    rwa [h] at hr
  have hu : (kGattStandardUuidPart1 ++ clean s).length = 8 := by
    simp [kGattStandardUuidPart1, bytes, h]
  have huhex : ∀ x ∈ kGattStandardUuidPart1 ++ clean s, isHexLowerB x = true := by
    intro x hx
    rcases List.mem_append.mp hx with hm | hm
    · exact hexLower_part1 x hm
    · exact hexLower_of_mem_clean hm
  simp only [gattUuidFromString, gattUuidFromU16, if_pos (by omega : (clean s).length * 4 = 16)]
  rw [dashify_hex8_suffix hu huhex, hmod, hrt]

/-- Witness for claim C7 at the concrete input "2901". -/
theorem text16_matches_u16_witness :
    (clean (bytes "2901")).length = 4 ∧
    (gattUuidFromString (bytes "2901")).uuid =
      (gattUuidFromU16 (hexToNat (clean (bytes "2901")))).uuid :=
  ⟨by decide, text16_matches_u16 (bytes "2901") (by decide)⟩

/-- Claim C8. For every input whose cleaned hex length is not 4, 8 or 32,
text construction produces bit count 0, an empty canonical string, and an
empty result from the width-dispatching renderer; all definitions here are
total, so no error signal exists to be raised. -/
theorem invalid_length_silent (s : List Nat) (h4 : (clean s).length ≠ 4)
    (h8 : (clean s).length ≠ 8) (h32 : (clean s).length ≠ 32) :
    (gattUuidFromString s).bitCount = 0 ∧ (gattUuidFromString s).uuid = [] ∧
    GattUuid.toString (gattUuidFromString s) = [] := by
  simp only [gattUuidFromString, if_neg (by omega : ¬(clean s).length * 4 = 16),
    if_neg (by omega : ¬(clean s).length * 4 = 32),
    if_pos (by omega : (clean s).length * 4 ≠ 128)]
  exact ⟨by decide, by decide, by decide⟩

/-- Witness for claim C8 at the concrete input "abc" (3 hex digits). -/
theorem invalid_length_silent_witness :
    ((clean (bytes "abc")).length ≠ 4 ∧ (clean (bytes "abc")).length ≠ 8 ∧
      (clean (bytes "abc")).length ≠ 32) ∧
    (gattUuidFromString (bytes "abc")).bitCount = 0 ∧
    (gattUuidFromString (bytes "abc")).uuid = [] ∧
    GattUuid.toString (gattUuidFromString (bytes "abc")) = [] :=
  ⟨by decide, invalid_length_silent (bytes "abc") (by decide) (by decide) (by decide)⟩

/-- Claim C9. `dashify` sanitizes and then inserts separators in order at
offsets 8, 13, 18, 23 of the progressively modified string, skipping an
insertion once the string is too short (the spec-worded `insertDashesSpec`
procedure); in particular `"0000180A.0000.100"` yields
`"0000180a-0000-100"` with exactly two separators inserted. -/
theorem dashify_progressive :
    (∀ s : List Nat, dashify s = insertDashesSpec (clean s) [8, 13, 18, 23]) ∧
    dashify (bytes "0000180A.0000.100") = bytes "0000180a-0000-100" ∧
    (dashify (bytes "0000180A.0000.100")).count 45 = 2 :=
  ⟨fun _ => rfl, by decide, by decide⟩
